import Mathlib

/-!
# The UDP listener of `udp.go`

A shallow embedding of `UDPServer.ListenAndServe` (`src/udp.go`).  The function
talks to four collaborators that are not part of the file: the network
(`net.ListenUDP`, `conn.ReadFromUDP`), the JSON decoder, the conversion
`serializedSeries.Series` and the storage engine (`Server.WriteSeries`).  They
are gathered in `Env`; the listener itself is a pure function from an
environment, a server value and the stream of receives to the list of observable
events (calls and log lines) and a final status.
-/

namespace Influxdb

/-- One byte of a datagram (a value below 256). -/
abbrev Byte := Nat

/-- Go `error` values seen by the listener: the package's own
`ErrBindAddressRequired` and errors produced by a collaborator. -/
inductive Error where
  | ErrBindAddressRequired
  | other (msg : String)
  deriving DecidableEq, Repr

/-- The fields of `net.UDPAddr`. -/
structure UDPAddr where
  IP : List Nat
  Port : Nat
  Zone : String
  deriving DecidableEq, Repr

/-- Modelled from the spec: the precision type behind the constant
`SecondPrecision` is declared outside `udp.go`; the spec (section 3,
PrecisionUnit) lists seconds, milliseconds and microseconds. -/
inductive TimePrecision where
  | SecondPrecision
  | MillisecondPrecision
  | MicrosecondPrecision
  deriving DecidableEq, Repr

/-- Modelled from the spec: a scalar of a row (section 3: numeric, string,
boolean or null).  A number keeps its literal, as `dec.UseNumber()` asks. -/
inductive Value where
  | number (literal : String)
  | string (s : String)
  | bool (b : Bool)
  | null
  deriving DecidableEq, Repr

/-- Modelled from the spec: the struct `serializedSeries` is declared outside
`udp.go`; the spec (section 3, SerializedSeries) gives it a name, an ordered
list of column names and an ordered list of rows. -/
structure serializedSeries where
  Name : String
  Columns : List String
  Points : List (List Value)
  deriving DecidableEq, Repr

/-- The fields of `UDPServer` that `ListenAndServe` reads.  `Addr` is a pointer:
`none` is nil.  `U` stands for `*ClusterAdmin`. -/
structure UDPServer (U : Type) where
  Addr : Option UDPAddr
  Database : String
  User : U

/-- The arguments of one call `s.server.WriteSeries(user, database, series)`;
`S` is the converted series type returned by `serializedSeries.Series`. -/
structure WriteCall (S U : Type) where
  user : U
  database : String
  series : S

/-- What one receive brings: the bytes the network has for the caller's buffer
and the error `ReadFromUDP` reports with them. -/
structure Receive where
  data : List Byte
  err : Option Error
  deriving DecidableEq, Repr

/-- The collaborators of the listener.
* `listenUDP addr` is the error of `net.ListenUDP("udp", addr)`, `none` when the
  socket is bound;
* `decode input` is `dec.Decode(&a)` on a decoder over `input` with `UseNumber`;
  an element `none` of the decoded list is a nil `*serializedSeries` (what JSON
  `null` decodes to);
* `series ss p` is `ss.Series(p)`;
* `writeSeries earlier call` is the error of `s.server.WriteSeries`, which may
  depend on the calls the storage engine has seen before. -/
structure Env (S U : Type) where
  listenUDP : UDPAddr → Option Error
  decode : List Byte → Except Error (List (Option serializedSeries))
  series : serializedSeries → TimePrecision → Except Error S
  writeSeries : List (WriteCall S U) → WriteCall S U → Option Error

/-- The observable actions of the listener, in the order they happen. -/
inductive Event (S U : Type) where
  | listen (addr : UDPAddr)
  | read
  | decode (input : List Byte)
  | convert (ss : serializedSeries) (precision : TimePrecision)
  | write (call : WriteCall S U) (result : Option Error)
  | log (format : String) (err : Option Error)
  | close

/-- How a run of `ListenAndServe` stands after the receives given to it:
still in the receive loop, returned to its caller, or ended by a panic. -/
inductive Status where
  | running
  | returned (err : Error)
  | panicked
  deriving DecidableEq, Repr

variable {S U : Type}

/-- The `WriteSeries` call of an event, if it is one. -/
def Event.asWrite : Event S U → Option (WriteCall S U)
  | .write call _ => some call
  | _ => none

/-- The `WriteSeries` calls of a list of events, in order. -/
def writeCalls (events : List (Event S U)) : List (WriteCall S U) :=
  events.filterMap Event.asWrite

/-- The decoder input of an event, if it is a decoder invocation. -/
def Event.asDecode : Event S U → Option (List Byte)
  | .decode input => some input
  | _ => none

/-- The inputs of the decoder invocations of a list of events, in order. -/
def decodeInputs (events : List (Event S U)) : List (List Byte) :=
  events.filterMap Event.asDecode

/-- The body of `for _, ss := range a` (lines 70-87) for a non-nil `ss`: the
events it produces when the storage engine has already seen `earlier`. -/
def handleSeries (env : Env S U) (s : UDPServer U) (earlier : List (WriteCall S U))
    (ss : serializedSeries) : List (Event S U) :=
  if ss.Points.length = 0 then
    []
  else
    match env.series ss .SecondPrecision with
    | .error err =>
      [.convert ss .SecondPrecision, .log "udp cannot convert received data: %s" (some err)]
    | .ok series =>
      let call : WriteCall S U := ⟨s.User, s.Database, series⟩
      match env.writeSeries earlier call with
      | some err =>
        [.convert ss .SecondPrecision, .write call (some err),
          .log "udp cannot write data: %s" (some err)]
      | none => [.convert ss .SecondPrecision, .write call none]

/-- The loop `for _, ss := range a` (lines 70-87): its events, and whether it
ended in a panic.  Reading `ss.Points` through a nil `ss` (line 71) is a nil
pointer dereference. -/
def rangeSeries (env : Env S U) (s : UDPServer U) :
    List (WriteCall S U) → List (Option serializedSeries) → List (Event S U) × Bool
  | _, [] => ([], false)
  | _, none :: _ => ([], true)
  | earlier, some ss :: rest =>
    let events := handleSeries env s earlier ss
    let after := rangeSeries env s (earlier ++ writeCalls events) rest
    (events ++ after.1, after.2)

/-- The call `conn.ReadFromUDP(buffer)` for the receive `r`: the number of bytes
copied, the error, and the buffer afterwards.  At most `len(buffer)` bytes are
copied, over the front of the buffer; the rest of the buffer keeps its bytes. -/
def readFromUDP (buffer : List Byte) (r : Receive) : Nat × Option Error × List Byte :=
  let n := min r.data.length buffer.length
  (n, r.err, r.data.take n ++ buffer.drop n)

/-- The result of one pass through the receive loop. -/
structure Pass (S U : Type) where
  server : UDPServer U
  buffer : List Byte
  events : List (Event S U)
  panicked : Bool

/-- One pass through the body of the receive loop (lines 52-88). -/
def iteration (env : Env S U) (s : UDPServer U) (earlier : List (WriteCall S U))
    (buffer : List Byte) (r : Receive) : Pass S U :=
  match readFromUDP buffer r with
  | (n, err, buffer) =>
    if err ≠ none ∨ n = 0 then
      ⟨s, buffer, [.read, .log "UDP ReadFromUDP error: %s" err], false⟩
    else
      let input := buffer.take n
      match env.decode input with
      | .error err => ⟨s, buffer, [.read, .decode input, .log "UDP json error: %s" (some err)], false⟩
      | .ok a =>
        let loop := rangeSeries env s earlier a
        ⟨s, buffer, .read :: .decode input :: loop.1, loop.2⟩

/-- The receive buffer of line 50, `make([]byte, 2048)`. -/
def freshBuffer : List Byte := List.replicate 2048 0

/-- The result of a run of the listener. -/
structure Run (S U : Type) where
  server : UDPServer U
  events : List (Event S U)
  status : Status

/-- The receive loop (lines 51-89) over the receives `recvs`.  A panic unwinds
through the deferred `conn.Close()` of line 47. -/
def receiveLoop (env : Env S U) :
    UDPServer U → List (WriteCall S U) → List Byte → List Receive → Run S U
  | s, _, _, [] => ⟨s, [], .running⟩
  | s, earlier, buffer, r :: rs =>
    let pass := iteration env s earlier buffer r
    if pass.panicked then
      ⟨pass.server, pass.events ++ [.close], .panicked⟩
    else
      let run := receiveLoop env pass.server (earlier ++ writeCalls pass.events) pass.buffer rs
      ⟨run.server, pass.events ++ run.events, run.status⟩

/-- The method `(s *UDPServer) ListenAndServe()` (lines 36-91), run over the
receives `recvs`. -/
def ListenAndServe (env : Env S U) (s : UDPServer U) (recvs : List Receive) : Run S U :=
  match s.Addr with
  | none => ⟨s, [], .returned .ErrBindAddressRequired⟩
  | some addr =>
    match env.listenUDP addr with
    | some err => ⟨s, [.listen addr], .returned err⟩
    | none =>
      let run := receiveLoop env s [] freshBuffer recvs
      ⟨run.server, .listen addr :: run.events, run.status⟩

/-! ## Concrete collaborators for the scenarios -/

/-- Modelled from the spec: `serializedSeries.Series` is declared outside
`udp.go`.  Of its behaviour the spec (section 4.3) fixes that it fails when a
row's length disagrees with the number of columns; this converter does exactly
that check and otherwise hands the record on unchanged. -/
def checkedSeries (ss : serializedSeries) (_precision : TimePrecision) :
    Except Error serializedSeries :=
  if ss.Points.all (fun row => row.length == ss.Columns.length) then
    .ok ss
  else
    .error (.other "invalid payload")

/-- A decoder given by a table of payloads and what they decode to; every other
payload is a syntax error. -/
def tableDecode (table : List (List Byte × List (Option serializedSeries)))
    (input : List Byte) : Except Error (List (Option serializedSeries)) :=
  match table.lookup input with
  | some a => .ok a
  | none => .error (.other "invalid character")

/-- The record `cpu` of the scenarios: one column, one row. -/
def cpu : serializedSeries := ⟨"cpu", ["value"], [[.number "42"]]⟩

/-- The record `mem` of the scenarios: one column, no row. -/
def mem : serializedSeries := ⟨"mem", ["value"], []⟩

/-- A record whose only row has one value for two columns. -/
def disk : serializedSeries := ⟨"disk", ["free", "used"], [[.number "7"]]⟩

/-- The bytes of the text `[null]`. -/
def nullPayload : List Byte := [91, 110, 117, 108, 108, 93]

/-- The bytes of the text `cpu,mem`, standing for the datagram with the
records `cpu` and `mem`. -/
def cpuMemPayload : List Byte := [99, 112, 117, 44, 109, 101, 109]

/-- The bytes of the text `disk,cpu`, standing for the datagram with the
records `disk` and `cpu`. -/
def diskCpuPayload : List Byte := [100, 105, 115, 107, 44, 99, 112, 117]

/-- The bytes of the text `cpu`, standing for the datagram with the record `cpu`. -/
def cpuPayload : List Byte := [99, 112, 117]

/-- The bytes of the text `oops`, which no decoder accepts. -/
def badPayload : List Byte := [111, 111, 112, 115]

/-- The event is a `WriteSeries` call that returned an error. -/
def Event.isFailedWrite : Event S U → Bool
  | .write _ (some _) => true
  | _ => false

/-- The event is a log line with the given format string. -/
def Event.isLogOf (format : String) : Event S U → Bool
  | .log f _ => f == format
  | _ => false

/-- The event is a call of `conn.ReadFromUDP`. -/
def Event.isRead : Event S U → Bool
  | .read => true
  | _ => false

/-- The event is an invocation of the decoder. -/
def Event.isDecode : Event S U → Bool
  | .decode _ => true
  | _ => false

/-- The event is a log line. -/
def Event.isLog : Event S U → Bool
  | .log _ _ => true
  | _ => false

/-- The event is an invocation of the decoder that returned an error. -/
def Event.isFailedDecode (env : Env S U) : Event S U → Bool
  | .decode input =>
    match env.decode input with
    | .error _ => true
    | .ok _ => false
  | _ => false

/-- The event is a conversion that returned an error. -/
def Event.isFailedConvert (env : Env S U) : Event S U → Bool
  | .convert ss p =>
    match env.series ss p with
    | .error _ => true
    | .ok _ => false
  | _ => false

/-- Every failure has its log line: the log lines of `events` are as many as
its receives that did not reach the decoder (a read without a decoder call),
its failed decoder calls, its failed conversions and its failed writes
together. -/
def Accounted (env : Env S U) (events : List (Event S U)) : Prop :=
  events.countP Event.isLog + events.countP Event.isDecode =
    events.countP Event.isRead + events.countP (Event.isFailedDecode env) +
      events.countP (Event.isFailedConvert env) + events.countP Event.isFailedWrite

/-- The receive passes the guard of line 53 when the buffer is not empty: no
error, and at least one byte. -/
def Receive.accepted (r : Receive) : Bool :=
  r.err.isNone && !r.data.isEmpty

/-- The receive `r` into `buffer` passes the guard of line 53 and the decoder,
given the received bytes, returns the list `a` without error. -/
def DecodesTo (env : Env S U) (buffer : List Byte) (r : Receive)
    (a : List (Option serializedSeries)) : Prop :=
  r.err = none ∧ 0 < r.data.length ∧ 0 < buffer.length ∧
    env.decode (r.data.take buffer.length) = .ok a

/-- A decoded list without its records that have no point. -/
def dropEmpty (a : List (Option serializedSeries)) : List (Option serializedSeries) :=
  a.filter fun
    | some ss => ss.Points.length ≠ 0
    | none => true

/-- The environment of the scenarios: the bind succeeds, the payloads above
decode to their records, conversion checks the row lengths, and the storage
engine refuses every write after its first. -/
def scenarioEnv : Env serializedSeries String where
  listenUDP := fun _ => none
  decode := tableDecode
    [(nullPayload, [none]), (cpuMemPayload, [some cpu, some mem]),
      (diskCpuPayload, [some disk, some cpu]), (cpuPayload, [some cpu])]
  series := checkedSeries
  writeSeries := fun earlier _ =>
    if earlier.length = 0 then none else some (.other "engine closed")

/-- The scenario environment with a storage engine that accepts every write. -/
def acceptingEnv : Env serializedSeries String :=
  { scenarioEnv with writeSeries := fun _ _ => none }

/-- The error `ReadFromUDP` reports on a closed socket. -/
def closedError : Error := .other "use of closed network connection"

/-- The server of the scenarios. -/
def scenarioServer : UDPServer String := ⟨some ⟨[127, 0, 0, 1], 4444, ""⟩, "metrics", "root"⟩

/-! ## The receive into the reused buffer -/

theorem readFromUDP_length (buffer : List Byte) (r : Receive) :
    (readFromUDP buffer r).2.2.length = buffer.length := by
  simp only [readFromUDP, List.length_append, List.length_take, List.length_drop]
  omega

theorem readFromUDP_input (buffer : List Byte) (r : Receive) :
    (readFromUDP buffer r).2.2.take (readFromUDP buffer r).1 = r.data.take buffer.length := by
  simp only [readFromUDP]
  rw [List.take_append_of_le_length (by simp)]
  rw [List.take_take, Nat.min_self]
  rcases Nat.le_total r.data.length buffer.length with h | h
  · rw [Nat.min_eq_left h, List.take_of_length_le (Nat.le_refl _), List.take_of_length_le h]
  · rw [Nat.min_eq_right h]

/-! ## The three ways through one pass of the receive loop -/

theorem iteration_rejected (env : Env S U) (s : UDPServer U) (earlier : List (WriteCall S U))
    (buffer : List Byte) (r : Receive)
    (h : r.err ≠ none ∨ r.data.length = 0 ∨ buffer.length = 0) :
    iteration env s earlier buffer r =
      ⟨s, (readFromUDP buffer r).2.2, [.read, .log "UDP ReadFromUDP error: %s" r.err], false⟩ := by
  have h' : (readFromUDP buffer r).2.1 ≠ none ∨ (readFromUDP buffer r).1 = 0 := by
    rcases h with h | h
    · exact Or.inl h
    · exact Or.inr (Nat.min_eq_zero_iff.mpr h)
  unfold iteration
  simp only [h', if_true]
  rfl

theorem iteration_decode_error (env : Env S U) (s : UDPServer U)
    (earlier : List (WriteCall S U)) (buffer : List Byte) (r : Receive) (e : Error)
    (herr : r.err = none) (hn : 0 < r.data.length) (hb : 0 < buffer.length)
    (hdec : env.decode (r.data.take buffer.length) = .error e) :
    iteration env s earlier buffer r =
      ⟨s, (readFromUDP buffer r).2.2,
        [.read, .decode (r.data.take buffer.length), .log "UDP json error: %s" (some e)],
        false⟩ := by
  have h' : ¬ ((readFromUDP buffer r).2.1 ≠ none ∨ (readFromUDP buffer r).1 = 0) := by
    have hmin : 0 < min r.data.length buffer.length := Nat.lt_min.mpr ⟨hn, hb⟩
    intro hor
    rcases hor with hor | hor
    · exact hor herr
    · exact absurd hor (Nat.pos_iff_ne_zero.mp hmin)
  unfold iteration
  simp only [h', if_false, readFromUDP_input, hdec]

theorem iteration_decoded (env : Env S U) (s : UDPServer U)
    (earlier : List (WriteCall S U)) (buffer : List Byte) (r : Receive)
    (a : List (Option serializedSeries))
    (herr : r.err = none) (hn : 0 < r.data.length) (hb : 0 < buffer.length)
    (hdec : env.decode (r.data.take buffer.length) = .ok a) :
    iteration env s earlier buffer r =
      ⟨s, (readFromUDP buffer r).2.2,
        .read :: .decode (r.data.take buffer.length) :: (rangeSeries env s earlier a).1,
        (rangeSeries env s earlier a).2⟩ := by
  have h' : ¬ ((readFromUDP buffer r).2.1 ≠ none ∨ (readFromUDP buffer r).1 = 0) := by
    have hmin : 0 < min r.data.length buffer.length := Nat.lt_min.mpr ⟨hn, hb⟩
    intro hor
    rcases hor with hor | hor
    · exact hor herr
    · exact absurd hor (Nat.pos_iff_ne_zero.mp hmin)
  unfold iteration
  simp only [h', if_false, readFromUDP_input, hdec]

/-! ## The loop over the decoded records -/

theorem writeCalls_nil : writeCalls ([] : List (Event S U)) = [] := rfl

theorem writeCalls_append (xs ys : List (Event S U)) :
    writeCalls (xs ++ ys) = writeCalls xs ++ writeCalls ys := by
  simp [writeCalls]

theorem rangeSeries_nil (env : Env S U) (s : UDPServer U) (earlier : List (WriteCall S U)) :
    rangeSeries env s earlier [] = ([], false) := rfl

theorem rangeSeries_none (env : Env S U) (s : UDPServer U) (earlier : List (WriteCall S U))
    (rest : List (Option serializedSeries)) :
    rangeSeries env s earlier (none :: rest) = ([], true) := rfl

theorem rangeSeries_some (env : Env S U) (s : UDPServer U) (earlier : List (WriteCall S U))
    (ss : serializedSeries) (rest : List (Option serializedSeries)) :
    rangeSeries env s earlier (some ss :: rest) =
      (handleSeries env s earlier ss ++
          (rangeSeries env s (earlier ++ writeCalls (handleSeries env s earlier ss)) rest).1,
        (rangeSeries env s (earlier ++ writeCalls (handleSeries env s earlier ss)) rest).2) := rfl

theorem handleSeries_empty (env : Env S U) (s : UDPServer U) (earlier : List (WriteCall S U))
    (ss : serializedSeries) (h : ss.Points.length = 0) :
    handleSeries env s earlier ss = [] := by
  simp [handleSeries, h]

theorem handleSeries_convert_error (env : Env S U) (s : UDPServer U)
    (earlier : List (WriteCall S U)) (ss : serializedSeries) (e : Error)
    (h : ss.Points.length ≠ 0) (hconv : env.series ss .SecondPrecision = .error e) :
    handleSeries env s earlier ss =
      [.convert ss .SecondPrecision, .log "udp cannot convert received data: %s" (some e)] := by
  simp [handleSeries, h, hconv]

theorem handleSeries_written (env : Env S U) (s : UDPServer U)
    (earlier : List (WriteCall S U)) (ss : serializedSeries) (x : S)
    (h : ss.Points.length ≠ 0) (hconv : env.series ss .SecondPrecision = .ok x)
    (hw : env.writeSeries earlier ⟨s.User, s.Database, x⟩ = none) :
    handleSeries env s earlier ss =
      [.convert ss .SecondPrecision, .write ⟨s.User, s.Database, x⟩ none] := by
  simp [handleSeries, h, hconv, hw]

theorem handleSeries_write_error (env : Env S U) (s : UDPServer U)
    (earlier : List (WriteCall S U)) (ss : serializedSeries) (x : S) (e : Error)
    (h : ss.Points.length ≠ 0) (hconv : env.series ss .SecondPrecision = .ok x)
    (hw : env.writeSeries earlier ⟨s.User, s.Database, x⟩ = some e) :
    handleSeries env s earlier ss =
      [.convert ss .SecondPrecision, .write ⟨s.User, s.Database, x⟩ (some e),
        .log "udp cannot write data: %s" (some e)] := by
  simp [handleSeries, h, hconv, hw]

/-- The loop over a list without nil elements, when every conversion succeeds
and no write made reports an error. -/
theorem rangeSeries_all_written (env : Env S U) (s : UDPServer U) (conv : serializedSeries → S)
    (recs : List serializedSeries) :
    ∀ earlier : List (WriteCall S U),
    (∀ ss ∈ recs, ss.Points.length ≠ 0 → env.series ss .SecondPrecision = .ok (conv ss)) →
    (∀ call res, Event.write call res ∈ (rangeSeries env s earlier (recs.map some)).1 →
      res = none) →
    rangeSeries env s earlier (recs.map some) =
      ((recs.filter (fun ss => ss.Points.length ≠ 0)).flatMap
          (fun ss => [.convert ss .SecondPrecision, .write ⟨s.User, s.Database, conv ss⟩ none]),
        false) := by
  induction recs with
  | nil => intro earlier _ _; rfl
  | cons ss rest ih =>
    intro earlier hconv hwrite
    rw [List.map_cons, rangeSeries_some] at hwrite ⊢
    have hrest : ∀ x ∈ rest, x.Points.length ≠ 0 →
        env.series x .SecondPrecision = .ok (conv x) :=
      fun x hx => hconv x (List.mem_cons_of_mem _ hx)
    by_cases h : ss.Points.length = 0
    · rw [handleSeries_empty env s earlier ss h] at hwrite ⊢
      simp only [writeCalls_nil, List.append_nil, List.nil_append] at hwrite ⊢
      rw [ih earlier hrest hwrite]
      have h' : ss.Points = [] := List.length_eq_zero.mp h
      simp [h']
    · have hc := hconv ss (List.mem_cons_self _ _) h
      cases hw : env.writeSeries earlier ⟨s.User, s.Database, conv ss⟩ with
      | some e =>
        rw [handleSeries_write_error env s earlier ss (conv ss) e h hc hw] at hwrite
        have := hwrite ⟨s.User, s.Database, conv ss⟩ (some e) (by simp)
        exact absurd this (by simp)
      | none =>
        rw [handleSeries_written env s earlier ss (conv ss) h hc hw] at hwrite ⊢
        have hwrite' : ∀ call res, Event.write call res ∈
            (rangeSeries env s (earlier ++ writeCalls
              [Event.convert ss .SecondPrecision,
                Event.write ⟨s.User, s.Database, conv ss⟩ none]) (rest.map some)).1 →
            res = none :=
          fun call res hmem => hwrite call res (List.mem_append_right _ hmem)
        rw [ih _ hrest hwrite']
        have h' : ss.Points ≠ [] := fun hnil => h (List.length_eq_zero.mpr hnil)
        simp [h']

/-! ## Facts about the scenario collaborators -/

theorem freshBuffer_length : freshBuffer.length = 2048 := by
  unfold freshBuffer
  exact List.length_replicate 2048 0

theorem take_freshBuffer_length (data : List Byte) (h : data.length ≤ 2048) :
    data.take freshBuffer.length = data := by
  rw [freshBuffer_length]
  exact List.take_of_length_le h

/-! ## Every record with points is written once, in order -/

/-- C1: when a datagram is received without error, its bytes decode into the
non-nil records `recs`, the conversion of every record with at least one point
succeeds (giving `conv ss`) and no `WriteSeries` call made while handling it
reports an error, then the events of the pass are the read, the decoder call
and, for each record with at least one point in payload order, its conversion
followed by `WriteSeries(s.User, s.Database, conv ss)`; so the `WriteSeries`
calls are exactly those, once each and in payload order, and the pass does not
panic. -/
theorem writes_each_series_once_in_order (env : Env S U) (s : UDPServer U)
    (earlier : List (WriteCall S U)) (buffer : List Byte) (r : Receive)
    (recs : List serializedSeries) (conv : serializedSeries → S)
    (herr : r.err = none) (hn : 0 < r.data.length) (hb : 0 < buffer.length)
    (hdec : env.decode (r.data.take buffer.length) = .ok (recs.map some))
    (hconv : ∀ ss ∈ recs, ss.Points.length ≠ 0 →
      env.series ss .SecondPrecision = .ok (conv ss))
    (hwrite : ∀ call res,
      Event.write call res ∈ (iteration env s earlier buffer r).events → res = none) :
    (iteration env s earlier buffer r).events =
        .read :: .decode (r.data.take buffer.length) ::
          (recs.filter (fun ss => ss.Points.length ≠ 0)).flatMap
            (fun ss => [.convert ss .SecondPrecision,
              .write ⟨s.User, s.Database, conv ss⟩ none])
      ∧ writeCalls (iteration env s earlier buffer r).events =
        (recs.filter (fun ss => ss.Points.length ≠ 0)).map
          (fun ss => ⟨s.User, s.Database, conv ss⟩)
      ∧ (iteration env s earlier buffer r).panicked = false := by
  rw [iteration_decoded env s earlier buffer r _ herr hn hb hdec] at hwrite ⊢
  have hwrite' : ∀ call res,
      Event.write call res ∈ (rangeSeries env s earlier (recs.map some)).1 → res = none :=
    fun call res hmem =>
      hwrite call res (List.mem_cons_of_mem _ (List.mem_cons_of_mem _ hmem))
  rw [rangeSeries_all_written env s conv recs earlier hconv hwrite']
  refine ⟨rfl, ?_, rfl⟩
  simp only [writeCalls, List.filterMap_cons, Event.asWrite]
  generalize recs.filter (fun ss => ss.Points.length ≠ 0) = kept
  induction kept with
  | nil => rfl
  | cons ss rest ih =>
    simp only [List.flatMap_cons, List.filterMap_append, List.map_cons, ih]
    rfl

/-- The scenario of C1: the datagram with the records `cpu` (one point) and
`mem` (no point) leads to exactly one `WriteSeries` call, for `cpu`. -/
theorem writes_each_series_once_in_order_witness :
    writeCalls (iteration acceptingEnv scenarioServer [] freshBuffer
        ⟨cpuMemPayload, none⟩).events = [⟨"root", "metrics", cpu⟩]
      ∧ cpu.Points.length = 1 := by
  have hdec : acceptingEnv.decode
      ((⟨cpuMemPayload, none⟩ : Receive).data.take freshBuffer.length) =
        .ok ([cpu, mem].map some) := by
    rw [take_freshBuffer_length _ (by decide)]
    rfl
  have hconv : ∀ ss ∈ [cpu, mem], ss.Points.length ≠ 0 →
      acceptingEnv.series ss .SecondPrecision = .ok (id ss) := by
    intro ss hss hpoints
    simp only [List.mem_cons, List.mem_singleton, List.not_mem_nil, or_false] at hss
    rcases hss with rfl | rfl
    · rfl
    · exact absurd rfl hpoints
  have hwrite : ∀ call res,
      Event.write call res ∈ (iteration acceptingEnv scenarioServer [] freshBuffer
        ⟨cpuMemPayload, none⟩).events → res = none := by
    intro call res hmem
    rw [iteration_decoded acceptingEnv scenarioServer [] freshBuffer _ _ rfl (by decide)
      (by rw [freshBuffer_length]; decide) hdec] at hmem
    simp [rangeSeries, handleSeries, acceptingEnv, scenarioEnv, checkedSeries, cpu, mem]
      at hmem
    exact hmem.2
  have h := writes_each_series_once_in_order acceptingEnv scenarioServer [] freshBuffer
    ⟨cpuMemPayload, none⟩ [cpu, mem] id rfl (by decide)
    (by rw [freshBuffer_length]; decide) hdec hconv hwrite
  refine ⟨?_, rfl⟩
  rw [h.2.1]
  rfl

/-! ## Records without points -/

theorem rangeSeries_dropEmpty (env : Env S U) (s : UDPServer U)
    (a : List (Option serializedSeries)) :
    ∀ earlier : List (WriteCall S U),
      rangeSeries env s earlier (dropEmpty a) = rangeSeries env s earlier a := by
  induction a with
  | nil => intro earlier; rfl
  | cons x rest ih =>
    intro earlier
    cases x with
    | none => rfl
    | some ss =>
      by_cases h : ss.Points.length = 0
      · have hd : dropEmpty (some ss :: rest) = dropEmpty rest := by
          simp [dropEmpty, List.filter_cons, List.length_eq_zero.mp h]
        rw [hd, ih, rangeSeries_some, handleSeries_empty env s earlier ss h]
        simp [writeCalls_nil]
      · have hd : dropEmpty (some ss :: rest) = some ss :: dropEmpty rest := by
          have h' : ss.Points ≠ [] := fun hnil => h (List.length_eq_zero.mpr hnil)
          simp [dropEmpty, List.filter_cons, h']
        rw [hd, rangeSeries_some, rangeSeries_some, ih]

theorem convert_mem_handleSeries (env : Env S U) (s : UDPServer U)
    (earlier : List (WriteCall S U)) (ss x : serializedSeries) (p : TimePrecision)
    (h : Event.convert x p ∈ handleSeries env s earlier ss) :
    x = ss ∧ ss.Points.length ≠ 0 := by
  unfold handleSeries at h
  split at h
  · simp at h
  · rename_i hpoints
    split at h
    · simp at h
      exact ⟨h.1, hpoints⟩
    · simp only at h
      split at h <;> simp at h <;> exact ⟨h.1, hpoints⟩

theorem convert_mem_rangeSeries (env : Env S U) (s : UDPServer U)
    (a : List (Option serializedSeries)) (x : serializedSeries) (p : TimePrecision) :
    ∀ earlier : List (WriteCall S U),
      Event.convert x p ∈ (rangeSeries env s earlier a).1 → some x ∈ a ∧ x.Points.length ≠ 0 := by
  induction a with
  | nil => intro earlier h; simp [rangeSeries_nil] at h
  | cons y rest ih =>
    intro earlier h
    cases y with
    | none => simp [rangeSeries_none] at h
    | some ss =>
      rw [rangeSeries_some] at h
      rcases List.mem_append.mp h with h | h
      · obtain ⟨rfl, hp⟩ := convert_mem_handleSeries env s earlier ss x p h
        exact ⟨List.mem_cons_self _ _, hp⟩
      · exact ⟨List.mem_cons_of_mem _ (ih _ h).1, (ih _ h).2⟩

/-- C2: a record without points produces no event at all (no conversion, no
`WriteSeries` call, no log line), whatever the storage engine has seen; no
conversion made while handling a datagram is for a record without points; and
a datagram whose records are those of another with the records without points
removed is handled with the same events after the decoder call, so with the
same `WriteSeries` calls and the same outcome. -/
theorem empty_series_is_skipped (env : Env S U) (s : UDPServer U)
    (earlier : List (WriteCall S U)) (buffer : List Byte) (r r' : Receive)
    (a : List (Option serializedSeries))
    (hr : DecodesTo env buffer r a) (hr' : DecodesTo env buffer r' (dropEmpty a)) :
    (∀ ss, some ss ∈ a → ss.Points.length = 0 →
        ∀ seen : List (WriteCall S U), handleSeries env s seen ss = [])
      ∧ (∀ ss p, Event.convert ss p ∈ (iteration env s earlier buffer r).events →
        ss.Points.length ≠ 0)
      ∧ (iteration env s earlier buffer r).events.drop 2 =
        (iteration env s earlier buffer r').events.drop 2
      ∧ writeCalls (iteration env s earlier buffer r).events =
        writeCalls (iteration env s earlier buffer r').events
      ∧ (iteration env s earlier buffer r).panicked =
        (iteration env s earlier buffer r').panicked := by
  obtain ⟨herr, hn, hb, hdec⟩ := hr
  obtain ⟨herr', hn', hb', hdec'⟩ := hr'
  rw [iteration_decoded env s earlier buffer r a herr hn hb hdec,
    iteration_decoded env s earlier buffer r' _ herr' hn' hb' hdec',
    rangeSeries_dropEmpty]
  refine ⟨fun ss _ h seen => handleSeries_empty env s seen ss h, ?_, rfl, ?_, rfl⟩
  · intro ss p h
    simp only [List.mem_cons, reduceCtorEq, false_or] at h
    exact (convert_mem_rangeSeries env s a ss p earlier h).2
  · simp [writeCalls, Event.asWrite]

/-- The scenario of C2: the datagram with `cpu` and `mem` is handled like the
datagram with `cpu` alone. -/
theorem empty_series_is_skipped_witness :
    writeCalls (iteration scenarioEnv scenarioServer [] freshBuffer
        ⟨cpuMemPayload, none⟩).events =
      writeCalls (iteration scenarioEnv scenarioServer [] freshBuffer
        ⟨cpuPayload, none⟩).events :=
  (empty_series_is_skipped scenarioEnv scenarioServer [] freshBuffer
    ⟨cpuMemPayload, none⟩ ⟨cpuPayload, none⟩ [some cpu, some mem]
    ⟨rfl, by decide, by rw [freshBuffer_length]; decide,
      by rw [take_freshBuffer_length _ (by decide)]; rfl⟩
    ⟨rfl, by decide, by rw [freshBuffer_length]; decide,
      by rw [take_freshBuffer_length _ (by decide)]; rfl⟩).2.2.2.1

/-! ## A failing conversion -/

theorem rangeSeries_append_somes (env : Env S U) (s : UDPServer U)
    (pre : List serializedSeries) (b : List (Option serializedSeries)) :
    ∀ earlier : List (WriteCall S U),
      rangeSeries env s earlier (pre.map some ++ b) =
        ((rangeSeries env s earlier (pre.map some)).1 ++
            (rangeSeries env s
              (earlier ++ writeCalls (rangeSeries env s earlier (pre.map some)).1) b).1,
          (rangeSeries env s
            (earlier ++ writeCalls (rangeSeries env s earlier (pre.map some)).1) b).2) := by
  induction pre with
  | nil => intro earlier; simp [rangeSeries_nil, writeCalls_nil]
  | cons ss rest ih =>
    intro earlier
    simp only [List.map_cons, List.cons_append, rangeSeries_some, ih, writeCalls_append,
      List.append_assoc]

theorem rangeSeries_somes_not_panicked (env : Env S U) (s : UDPServer U)
    (recs : List serializedSeries) :
    ∀ earlier : List (WriteCall S U),
      (rangeSeries env s earlier (recs.map some)).2 = false := by
  induction recs with
  | nil => intro earlier; rfl
  | cons ss rest ih => intro earlier; simp only [List.map_cons, rangeSeries_some, ih]

/-- C3: let a datagram decode into the non-nil records `pre ++ ss :: post`,
where `ss` has at least one point and its conversion fails with `e`.  Then the
events of the pass are those of the records `pre`, then the conversion of `ss`
and exactly one log line for it (and no `WriteSeries` call), then those of the
records `post`, which are all still processed; a datagram decoding into
`pre ++ post` gives the same events without the two of `ss`, so the
`WriteSeries` calls of the two datagrams are equal, and neither pass panics. -/
theorem conversion_failure_is_isolated (env : Env S U) (s : UDPServer U)
    (earlier : List (WriteCall S U)) (buffer : List Byte) (r r' : Receive)
    (pre post : List serializedSeries) (ss : serializedSeries) (e : Error)
    (hr : DecodesTo env buffer r ((pre ++ ss :: post).map some))
    (hr' : DecodesTo env buffer r' ((pre ++ post).map some))
    (hpoints : ss.Points.length ≠ 0)
    (hconv : env.series ss .SecondPrecision = .error e) :
    (iteration env s earlier buffer r).events =
        .read :: .decode (r.data.take buffer.length) ::
          ((rangeSeries env s earlier (pre.map some)).1 ++
            [.convert ss .SecondPrecision,
              .log "udp cannot convert received data: %s" (some e)] ++
            (rangeSeries env s
              (earlier ++ writeCalls (rangeSeries env s earlier (pre.map some)).1)
              (post.map some)).1)
      ∧ (iteration env s earlier buffer r').events =
        .read :: .decode (r'.data.take buffer.length) ::
          ((rangeSeries env s earlier (pre.map some)).1 ++
            (rangeSeries env s
              (earlier ++ writeCalls (rangeSeries env s earlier (pre.map some)).1)
              (post.map some)).1)
      ∧ writeCalls (iteration env s earlier buffer r).events =
        writeCalls (iteration env s earlier buffer r').events
      ∧ (iteration env s earlier buffer r).panicked = false
      ∧ (iteration env s earlier buffer r').panicked = false := by
  obtain ⟨herr, hn, hb, hdec⟩ := hr
  obtain ⟨herr', hn', hb', hdec'⟩ := hr'
  rw [iteration_decoded env s earlier buffer r _ herr hn hb hdec,
    iteration_decoded env s earlier buffer r' _ herr' hn' hb' hdec']
  have hfull : rangeSeries env s earlier ((pre ++ ss :: post).map some) =
      ((rangeSeries env s earlier (pre.map some)).1 ++
          [.convert ss .SecondPrecision,
            .log "udp cannot convert received data: %s" (some e)] ++
          (rangeSeries env s
            (earlier ++ writeCalls (rangeSeries env s earlier (pre.map some)).1)
            (post.map some)).1, false) := by
    rw [List.map_append, rangeSeries_append_somes, List.map_cons, rangeSeries_some,
      handleSeries_convert_error env s _ ss e hpoints hconv]
    simp [writeCalls, Event.asWrite, rangeSeries_somes_not_panicked]
  have hless : rangeSeries env s earlier ((pre ++ post).map some) =
      ((rangeSeries env s earlier (pre.map some)).1 ++
          (rangeSeries env s
            (earlier ++ writeCalls (rangeSeries env s earlier (pre.map some)).1)
            (post.map some)).1, false) := by
    rw [List.map_append, rangeSeries_append_somes, rangeSeries_somes_not_panicked]
  rw [hfull, hless]
  refine ⟨rfl, rfl, ?_, rfl, rfl⟩
  simp [writeCalls, Event.asWrite]

/-- The row-length scenario of C3: `disk` has two columns and a row of one
value, so its conversion fails; the datagram with `disk` and `cpu` still writes
`cpu`, as the datagram with `cpu` alone does. -/
theorem conversion_failure_is_isolated_witness :
    writeCalls (iteration scenarioEnv scenarioServer [] freshBuffer
        ⟨diskCpuPayload, none⟩).events =
      writeCalls (iteration scenarioEnv scenarioServer [] freshBuffer
        ⟨cpuPayload, none⟩).events
    ∧ (iteration scenarioEnv scenarioServer [] freshBuffer
        ⟨diskCpuPayload, none⟩).panicked = false :=
  have h := conversion_failure_is_isolated scenarioEnv scenarioServer [] freshBuffer
    ⟨diskCpuPayload, none⟩ ⟨cpuPayload, none⟩ [] [cpu] disk (.other "invalid payload")
    ⟨rfl, by decide, by rw [freshBuffer_length]; decide,
      by rw [take_freshBuffer_length _ (by decide)]; rfl⟩
    ⟨rfl, by decide, by rw [freshBuffer_length]; decide,
      by rw [take_freshBuffer_length _ (by decide)]; rfl⟩
    (by decide) rfl
  ⟨h.2.2.1, h.2.2.2.1⟩

/-! ## One pass, by cases -/

theorem iteration_cases (env : Env S U) (s : UDPServer U) (earlier : List (WriteCall S U))
    (buffer : List Byte) (r : Receive) :
    ((r.err ≠ none ∨ r.data.length = 0 ∨ buffer.length = 0) ∧
        iteration env s earlier buffer r =
          ⟨s, (readFromUDP buffer r).2.2,
            [.read, .log "UDP ReadFromUDP error: %s" r.err], false⟩)
      ∨ (∃ e, (r.err = none ∧ 0 < r.data.length ∧ 0 < buffer.length ∧
          env.decode (r.data.take buffer.length) = .error e) ∧
        iteration env s earlier buffer r =
          ⟨s, (readFromUDP buffer r).2.2,
            [.read, .decode (r.data.take buffer.length),
              .log "UDP json error: %s" (some e)], false⟩)
      ∨ (∃ a, DecodesTo env buffer r a ∧
        iteration env s earlier buffer r =
          ⟨s, (readFromUDP buffer r).2.2,
            .read :: .decode (r.data.take buffer.length) :: (rangeSeries env s earlier a).1,
            (rangeSeries env s earlier a).2⟩) := by
  by_cases herr : r.err = none
  · by_cases hn : r.data.length = 0
    · exact Or.inl ⟨Or.inr (Or.inl hn),
        iteration_rejected env s earlier buffer r (Or.inr (Or.inl hn))⟩
    · by_cases hb : buffer.length = 0
      · exact Or.inl ⟨Or.inr (Or.inr hb),
          iteration_rejected env s earlier buffer r (Or.inr (Or.inr hb))⟩
      · have hn' : 0 < r.data.length := Nat.pos_of_ne_zero hn
        have hb' : 0 < buffer.length := Nat.pos_of_ne_zero hb
        cases hdec : env.decode (r.data.take buffer.length) with
        | error e =>
          exact Or.inr (Or.inl ⟨e, ⟨herr, hn', hb', rfl⟩,
            iteration_decode_error env s earlier buffer r e herr hn' hb' hdec⟩)
        | ok a =>
          exact Or.inr (Or.inr ⟨a, ⟨herr, hn', hb', hdec⟩,
            iteration_decoded env s earlier buffer r a herr hn' hb' hdec⟩)
  · exact Or.inl ⟨Or.inl herr, iteration_rejected env s earlier buffer r (Or.inl herr)⟩

theorem iteration_server (env : Env S U) (s : UDPServer U) (earlier : List (WriteCall S U))
    (buffer : List Byte) (r : Receive) : (iteration env s earlier buffer r).server = s := by
  rcases iteration_cases env s earlier buffer r with ⟨_, h⟩ | ⟨_, _, h⟩ | ⟨_, _, h⟩ <;> rw [h]

theorem iteration_buffer (env : Env S U) (s : UDPServer U) (earlier : List (WriteCall S U))
    (buffer : List Byte) (r : Receive) :
    (iteration env s earlier buffer r).buffer = (readFromUDP buffer r).2.2 := by
  rcases iteration_cases env s earlier buffer r with ⟨_, h⟩ | ⟨_, _, h⟩ | ⟨_, _, h⟩ <;> rw [h]

theorem receiveLoop_nil (env : Env S U) (s : UDPServer U) (earlier : List (WriteCall S U))
    (buffer : List Byte) : receiveLoop env s earlier buffer [] = ⟨s, [], .running⟩ := rfl

theorem receiveLoop_cons_panicked (env : Env S U) (s : UDPServer U)
    (earlier : List (WriteCall S U)) (buffer : List Byte) (r : Receive) (rs : List Receive)
    (h : (iteration env s earlier buffer r).panicked = true) :
    receiveLoop env s earlier buffer (r :: rs) =
      ⟨s, (iteration env s earlier buffer r).events ++ [.close], .panicked⟩ := by
  simp only [receiveLoop, h, if_true, iteration_server]

theorem receiveLoop_cons_continues (env : Env S U) (s : UDPServer U)
    (earlier : List (WriteCall S U)) (buffer : List Byte) (r : Receive) (rs : List Receive)
    (h : (iteration env s earlier buffer r).panicked = false) :
    receiveLoop env s earlier buffer (r :: rs) =
      ⟨(receiveLoop env s (earlier ++ writeCalls (iteration env s earlier buffer r).events)
          (readFromUDP buffer r).2.2 rs).server,
        (iteration env s earlier buffer r).events ++
          (receiveLoop env s (earlier ++ writeCalls (iteration env s earlier buffer r).events)
            (readFromUDP buffer r).2.2 rs).events,
        (receiveLoop env s (earlier ++ writeCalls (iteration env s earlier buffer r).events)
          (readFromUDP buffer r).2.2 rs).status⟩ := by
  simp [receiveLoop, h, iteration_server, iteration_buffer]

theorem ListenAndServe_unbound (env : Env S U) (s : UDPServer U) (recvs : List Receive)
    (h : s.Addr = none) :
    ListenAndServe env s recvs = ⟨s, [], .returned .ErrBindAddressRequired⟩ := by
  simp [ListenAndServe, h]

theorem ListenAndServe_bind_failed (env : Env S U) (s : UDPServer U) (recvs : List Receive)
    (addr : UDPAddr) (e : Error) (h : s.Addr = some addr) (hl : env.listenUDP addr = some e) :
    ListenAndServe env s recvs = ⟨s, [.listen addr], .returned e⟩ := by
  simp [ListenAndServe, h, hl]

theorem ListenAndServe_bound (env : Env S U) (s : UDPServer U) (recvs : List Receive)
    (addr : UDPAddr) (h : s.Addr = some addr) (hl : env.listenUDP addr = none) :
    ListenAndServe env s recvs =
      ⟨(receiveLoop env s [] freshBuffer recvs).server,
        .listen addr :: (receiveLoop env s [] freshBuffer recvs).events,
        (receiveLoop env s [] freshBuffer recvs).status⟩ := by
  simp [ListenAndServe, h, hl]

/-! ## The storage engine's answers do not steer the listener -/

theorem handleSeries_calls_indep (env env' : Env S U) (hs : env'.series = env.series)
    (s : UDPServer U) (seen seen' : List (WriteCall S U)) (ss : serializedSeries) :
    writeCalls (handleSeries env s seen ss) = writeCalls (handleSeries env' s seen' ss) := by
  unfold handleSeries
  rw [hs]
  split
  · rfl
  · cases env.series ss .SecondPrecision with
    | error e => rfl
    | ok x =>
      simp only
      cases env.writeSeries seen ⟨s.User, s.Database, x⟩ <;>
        cases env'.writeSeries seen' ⟨s.User, s.Database, x⟩ <;> rfl

theorem rangeSeries_calls_indep (env env' : Env S U) (hs : env'.series = env.series)
    (s : UDPServer U) (a : List (Option serializedSeries)) :
    ∀ seen seen' : List (WriteCall S U),
      writeCalls (rangeSeries env s seen a).1 = writeCalls (rangeSeries env' s seen' a).1 ∧
        (rangeSeries env s seen a).2 = (rangeSeries env' s seen' a).2 := by
  induction a with
  | nil => intro seen seen'; exact ⟨rfl, rfl⟩
  | cons x rest ih =>
    intro seen seen'
    cases x with
    | none => exact ⟨rfl, rfl⟩
    | some ss =>
      simp only [rangeSeries_some, writeCalls_append]
      exact ⟨by rw [handleSeries_calls_indep env env' hs s seen seen' ss, (ih _ _).1],
        (ih _ _).2⟩

theorem iteration_calls_indep (env env' : Env S U) (hd : env'.decode = env.decode)
    (hs : env'.series = env.series) (s : UDPServer U) (seen seen' : List (WriteCall S U))
    (buffer : List Byte) (r : Receive) :
    writeCalls (iteration env s seen buffer r).events =
        writeCalls (iteration env' s seen' buffer r).events ∧
      (iteration env s seen buffer r).panicked =
        (iteration env' s seen' buffer r).panicked := by
  rcases iteration_cases env s seen buffer r with ⟨hc, h⟩ | ⟨e, hc, h⟩ | ⟨a, hc, h⟩
  · rw [h, iteration_rejected env' s seen' buffer r hc]
    exact ⟨rfl, rfl⟩
  · rw [h, iteration_decode_error env' s seen' buffer r e hc.1 hc.2.1 hc.2.2.1
      (by rw [hd]; exact hc.2.2.2)]
    exact ⟨rfl, rfl⟩
  · rw [h, iteration_decoded env' s seen' buffer r a hc.1 hc.2.1 hc.2.2.1
      (by rw [hd]; exact hc.2.2.2)]
    have hr := rangeSeries_calls_indep env env' hs s a seen seen'
    refine ⟨?_, hr.2⟩
    simpa [writeCalls, Event.asWrite] using hr.1

theorem receiveLoop_calls_indep (env env' : Env S U) (hd : env'.decode = env.decode)
    (hs : env'.series = env.series) (s : UDPServer U) (recvs : List Receive) :
    ∀ (seen seen' : List (WriteCall S U)) (buffer : List Byte),
      writeCalls (receiveLoop env s seen buffer recvs).events =
          writeCalls (receiveLoop env' s seen' buffer recvs).events ∧
        (receiveLoop env s seen buffer recvs).status =
          (receiveLoop env' s seen' buffer recvs).status := by
  induction recvs with
  | nil => intro seen seen' buffer; exact ⟨rfl, rfl⟩
  | cons r rs ih =>
    intro seen seen' buffer
    have hi := iteration_calls_indep env env' hd hs s seen seen' buffer r
    cases hp : (iteration env s seen buffer r).panicked with
    | true =>
      rw [receiveLoop_cons_panicked env s seen buffer r rs hp,
        receiveLoop_cons_panicked env' s seen' buffer r rs (hi.2 ▸ hp)]
      simp only [writeCalls_append, hi.1, and_self]
    | false =>
      rw [receiveLoop_cons_continues env s seen buffer r rs hp,
        receiveLoop_cons_continues env' s seen' buffer r rs (hi.2 ▸ hp)]
      simp only [writeCalls_append, hi.1]
      exact ⟨by rw [(ih _ _ _).1], (ih _ _ _).2⟩

theorem ListenAndServe_calls_indep (env env' : Env S U)
    (hl : env'.listenUDP = env.listenUDP) (hd : env'.decode = env.decode)
    (hs : env'.series = env.series) (s : UDPServer U) (recvs : List Receive) :
    writeCalls (ListenAndServe env s recvs).events =
        writeCalls (ListenAndServe env' s recvs).events ∧
      (ListenAndServe env s recvs).status = (ListenAndServe env' s recvs).status := by
  cases haddr : s.Addr with
  | none =>
    rw [ListenAndServe_unbound env s recvs haddr, ListenAndServe_unbound env' s recvs haddr]
    exact ⟨rfl, rfl⟩
  | some addr =>
    cases hbind : env.listenUDP addr with
    | some e =>
      rw [ListenAndServe_bind_failed env s recvs addr e haddr hbind,
        ListenAndServe_bind_failed env' s recvs addr e haddr (by rw [hl]; exact hbind)]
      exact ⟨rfl, rfl⟩
    | none =>
      rw [ListenAndServe_bound env s recvs addr haddr hbind,
        ListenAndServe_bound env' s recvs addr haddr (by rw [hl]; exact hbind)]
      have h := receiveLoop_calls_indep env env' hd hs s recvs [] [] freshBuffer
      refine ⟨?_, h.2⟩
      simpa [writeCalls, Event.asWrite] using h.1

/-! ## Every failed write is logged once -/

theorem handleSeries_write_errors_logged (env : Env S U) (s : UDPServer U)
    (seen : List (WriteCall S U)) (ss : serializedSeries) :
    (handleSeries env s seen ss).countP (Event.isLogOf "udp cannot write data: %s") =
      (handleSeries env s seen ss).countP Event.isFailedWrite := by
  unfold handleSeries
  split
  · rfl
  · cases env.series ss .SecondPrecision with
    | error e => simp [Event.isLogOf, Event.isFailedWrite]
    | ok x =>
      simp only
      cases env.writeSeries seen ⟨s.User, s.Database, x⟩ <;>
        simp [Event.isLogOf, Event.isFailedWrite]

theorem rangeSeries_write_errors_logged (env : Env S U) (s : UDPServer U)
    (a : List (Option serializedSeries)) :
    ∀ seen : List (WriteCall S U),
      (rangeSeries env s seen a).1.countP (Event.isLogOf "udp cannot write data: %s") =
        (rangeSeries env s seen a).1.countP Event.isFailedWrite := by
  induction a with
  | nil => intro seen; rfl
  | cons x rest ih =>
    intro seen
    cases x with
    | none => rfl
    | some ss =>
      simp only [rangeSeries_some, List.countP_append, ih,
        handleSeries_write_errors_logged]

theorem iteration_write_errors_logged (env : Env S U) (s : UDPServer U)
    (seen : List (WriteCall S U)) (buffer : List Byte) (r : Receive) :
    (iteration env s seen buffer r).events.countP (Event.isLogOf "udp cannot write data: %s") =
      (iteration env s seen buffer r).events.countP Event.isFailedWrite := by
  rcases iteration_cases env s seen buffer r with ⟨_, h⟩ | ⟨e, _, h⟩ | ⟨a, _, h⟩
  · rw [h]; simp [Event.isLogOf, Event.isFailedWrite]
  · rw [h]; simp [Event.isLogOf, Event.isFailedWrite]
  · rw [h]
    simp [Event.isLogOf, Event.isFailedWrite, rangeSeries_write_errors_logged]

theorem receiveLoop_write_errors_logged (env : Env S U) (s : UDPServer U)
    (recvs : List Receive) :
    ∀ (seen : List (WriteCall S U)) (buffer : List Byte),
      (receiveLoop env s seen buffer recvs).events.countP
          (Event.isLogOf "udp cannot write data: %s") =
        (receiveLoop env s seen buffer recvs).events.countP Event.isFailedWrite := by
  induction recvs with
  | nil => intro seen buffer; rfl
  | cons r rs ih =>
    intro seen buffer
    cases hp : (iteration env s seen buffer r).panicked with
    | true =>
      rw [receiveLoop_cons_panicked env s seen buffer r rs hp]
      simp [List.countP_append, iteration_write_errors_logged, Event.isLogOf,
        Event.isFailedWrite]
    | false =>
      rw [receiveLoop_cons_continues env s seen buffer r rs hp]
      simp only [List.countP_append, iteration_write_errors_logged, ih]

theorem ListenAndServe_write_errors_logged (env : Env S U) (s : UDPServer U)
    (recvs : List Receive) :
    (ListenAndServe env s recvs).events.countP (Event.isLogOf "udp cannot write data: %s") =
      (ListenAndServe env s recvs).events.countP Event.isFailedWrite := by
  cases haddr : s.Addr with
  | none => rw [ListenAndServe_unbound env s recvs haddr]; rfl
  | some addr =>
    cases hbind : env.listenUDP addr with
    | some e =>
      rw [ListenAndServe_bind_failed env s recvs addr e haddr hbind]
      simp [Event.isLogOf, Event.isFailedWrite]
    | none =>
      rw [ListenAndServe_bound env s recvs addr haddr hbind]
      simp [Event.isLogOf, Event.isFailedWrite, receiveLoop_write_errors_logged]

/-- C4: for any two behaviours `w` and `w'` of the storage engine, with the
other collaborators the same, a run of the listener over the same receives
makes the same `WriteSeries` calls in the same order and ends in the same
status, so an error of the storage engine neither undoes nor prevents a call
and does not end the receive loop; a `WriteSeries` call that returns an error is
followed by exactly one log line and ends the handling of its record only; and
over a whole run there are as many log lines of a failed write as there are
`WriteSeries` calls that returned an error. -/
theorem sink_errors_do_not_change_the_calls (env : Env S U)
    (w w' : List (WriteCall S U) → WriteCall S U → Option Error)
    (s : UDPServer U) (recvs : List Receive) :
    writeCalls (ListenAndServe { env with writeSeries := w } s recvs).events =
        writeCalls (ListenAndServe { env with writeSeries := w' } s recvs).events
      ∧ (ListenAndServe { env with writeSeries := w } s recvs).status =
        (ListenAndServe { env with writeSeries := w' } s recvs).status
      ∧ (∀ (seen : List (WriteCall S U)) (ss : serializedSeries) (x : S) (e : Error),
        ss.Points.length ≠ 0 → env.series ss .SecondPrecision = .ok x →
        w seen ⟨s.User, s.Database, x⟩ = some e →
        handleSeries { env with writeSeries := w } s seen ss =
          [.convert ss .SecondPrecision, .write ⟨s.User, s.Database, x⟩ (some e),
            .log "udp cannot write data: %s" (some e)])
      ∧ (ListenAndServe { env with writeSeries := w } s recvs).events.countP
          (Event.isLogOf "udp cannot write data: %s") =
        (ListenAndServe { env with writeSeries := w } s recvs).events.countP
          Event.isFailedWrite := by
  refine ⟨?_, ?_, ?_, ListenAndServe_write_errors_logged _ s recvs⟩
  · exact (ListenAndServe_calls_indep { env with writeSeries := w }
      { env with writeSeries := w' } rfl rfl rfl s recvs).1
  · exact (ListenAndServe_calls_indep { env with writeSeries := w }
      { env with writeSeries := w' } rfl rfl rfl s recvs).2
  · intro seen ss x e hpoints hconv hw
    exact handleSeries_write_error _ s seen ss x e hpoints hconv hw

/-! ## A payload that does not decode -/

theorem receiveLoop_server (env : Env S U) (s : UDPServer U) (recvs : List Receive) :
    ∀ (seen : List (WriteCall S U)) (buffer : List Byte),
      (receiveLoop env s seen buffer recvs).server = s := by
  induction recvs with
  | nil => intro seen buffer; rfl
  | cons r rs ih =>
    intro seen buffer
    cases hp : (iteration env s seen buffer r).panicked with
    | true => rw [receiveLoop_cons_panicked env s seen buffer r rs hp]
    | false => rw [receiveLoop_cons_continues env s seen buffer r rs hp]; exact ih _ _

/-- C5: when a datagram is received without error and the decoder fails on its
bytes with `e`, the pass consists of the read, the decoder call and exactly one
log line (no conversion, no `WriteSeries` call), does not panic and leaves the
server value (`Addr`, `Database`, `User`) as it was; the loop then goes on with
the remaining receives `rs` exactly as it would have without this datagram,
apart from the contents of the buffer. -/
theorem decode_error_is_logged_and_skipped (env : Env S U) (s : UDPServer U)
    (seen : List (WriteCall S U)) (buffer : List Byte) (r : Receive) (rs : List Receive)
    (e : Error)
    (herr : r.err = none) (hn : 0 < r.data.length) (hb : 0 < buffer.length)
    (hdec : env.decode (r.data.take buffer.length) = .error e) :
    (iteration env s seen buffer r).events =
        [.read, .decode (r.data.take buffer.length), .log "UDP json error: %s" (some e)]
      ∧ (iteration env s seen buffer r).panicked = false
      ∧ (iteration env s seen buffer r).server = s
      ∧ (receiveLoop env s seen buffer (r :: rs)).events =
        [.read, .decode (r.data.take buffer.length), .log "UDP json error: %s" (some e)] ++
          (receiveLoop env s seen (readFromUDP buffer r).2.2 rs).events
      ∧ (receiveLoop env s seen buffer (r :: rs)).status =
        (receiveLoop env s seen (readFromUDP buffer r).2.2 rs).status
      ∧ (receiveLoop env s seen buffer (r :: rs)).server = s := by
  have h := iteration_decode_error env s seen buffer r e herr hn hb hdec
  have hp : (iteration env s seen buffer r).panicked = false := by rw [h]
  refine ⟨by rw [h], hp, by rw [h], ?_, ?_, receiveLoop_server env s _ _ _⟩
  · rw [receiveLoop_cons_continues env s seen buffer r rs hp, h]
    simp [writeCalls, Event.asWrite]
  · rw [receiveLoop_cons_continues env s seen buffer r rs hp, h]
    simp [writeCalls, Event.asWrite]

/-- The scenario of C5: a datagram that is not well-formed gives the read, the
decoder call and one log line, and the next datagram is handled. -/
theorem decode_error_is_logged_and_skipped_witness :
    (iteration scenarioEnv scenarioServer [] freshBuffer ⟨badPayload, none⟩).events =
        [.read, .decode badPayload,
          .log "UDP json error: %s" (some (.other "invalid character"))]
      ∧ (receiveLoop scenarioEnv scenarioServer [] freshBuffer
          [⟨badPayload, none⟩, ⟨cpuPayload, none⟩]).status =
        (receiveLoop scenarioEnv scenarioServer [] (readFromUDP freshBuffer
          ⟨badPayload, none⟩).2.2 [⟨cpuPayload, none⟩]).status := by
  have hdec : scenarioEnv.decode
      ((⟨badPayload, none⟩ : Receive).data.take freshBuffer.length) =
        .error (.other "invalid character") := by
    rw [take_freshBuffer_length _ (by decide)]
    rfl
  have h := decode_error_is_logged_and_skipped scenarioEnv scenarioServer [] freshBuffer
    ⟨badPayload, none⟩ [⟨cpuPayload, none⟩] (.other "invalid character") rfl (by decide)
    (by rw [freshBuffer_length]; decide) hdec
  refine ⟨?_, h.2.2.2.2.1⟩
  rw [h.1, take_freshBuffer_length _ (by decide)]

/-! ## A nil record -/

/-- C6 fails on the code: the datagram `[null]` decodes without error into a
list holding one nil record; reading `ss.Points` through it at line 71 panics,
the deferred `conn.Close()` runs, and the datagram that follows is never
received. -/
theorem null_record_panics :
    (ListenAndServe scenarioEnv scenarioServer
        [⟨nullPayload, none⟩, ⟨cpuPayload, none⟩]).status = .panicked
      ∧ (ListenAndServe scenarioEnv scenarioServer
          [⟨nullPayload, none⟩, ⟨cpuPayload, none⟩]).events =
        [.listen ⟨[127, 0, 0, 1], 4444, ""⟩, .read, .decode nullPayload, .close] := by
  have hdec : scenarioEnv.decode
      ((⟨nullPayload, none⟩ : Receive).data.take freshBuffer.length) = .ok [none] := by
    rw [take_freshBuffer_length _ (by decide)]
    rfl
  have hi := iteration_decoded scenarioEnv scenarioServer [] freshBuffer
    ⟨nullPayload, none⟩ [none] rfl (by decide) (by rw [freshBuffer_length]; decide) hdec
  rw [take_freshBuffer_length _ (by decide), rangeSeries_none] at hi
  have hp : (iteration scenarioEnv scenarioServer [] freshBuffer
      ⟨nullPayload, none⟩).panicked = true := by rw [hi]
  rw [ListenAndServe_bound scenarioEnv scenarioServer _ ⟨[127, 0, 0, 1], 4444, ""⟩ rfl rfl,
    receiveLoop_cons_panicked scenarioEnv scenarioServer [] freshBuffer _ _ hp, hi]
  exact ⟨rfl, rfl⟩

/-! ## The bind address -/

/-- C7: when `s.Addr` is nil, `ListenAndServe` returns `ErrBindAddressRequired`
and does nothing else: the run has no event (no socket opened, no datagram
read, no log line, no `WriteSeries` call), whatever the environment. -/
theorem missing_address_returns_at_once (env : Env S U) (s : UDPServer U)
    (recvs : List Receive) (h : s.Addr = none) :
    (ListenAndServe env s recvs).status = .returned .ErrBindAddressRequired
      ∧ (ListenAndServe env s recvs).events = [] := by
  rw [ListenAndServe_unbound env s recvs h]
  exact ⟨rfl, rfl⟩

/-- The scenario of C7: a server without address, with a datagram waiting. -/
theorem missing_address_returns_at_once_witness :
    (ListenAndServe scenarioEnv ⟨none, "metrics", "root"⟩
        [⟨cpuPayload, none⟩]).status = .returned .ErrBindAddressRequired
      ∧ (ListenAndServe scenarioEnv ⟨none, "metrics", "root"⟩
        [⟨cpuPayload, none⟩]).events = [] :=
  missing_address_returns_at_once scenarioEnv ⟨none, "metrics", "root"⟩
    [⟨cpuPayload, none⟩] rfl

/-! ## The loop is left only by a panic -/

theorem Accounted_append (env : Env S U) (xs ys : List (Event S U))
    (hx : Accounted env xs) (hy : Accounted env ys) : Accounted env (xs ++ ys) := by
  unfold Accounted at *
  simp only [List.countP_append]
  omega

theorem handleSeries_accounted (env : Env S U) (s : UDPServer U)
    (seen : List (WriteCall S U)) (ss : serializedSeries) :
    Accounted env (handleSeries env s seen ss) := by
  unfold handleSeries
  split
  · simp [Accounted]
  · cases hser : env.series ss .SecondPrecision with
    | error e =>
      simp [Accounted, Event.isLog, Event.isDecode, Event.isRead, Event.isFailedDecode,
        Event.isFailedConvert, Event.isFailedWrite, hser]
    | ok x =>
      simp only
      cases env.writeSeries seen ⟨s.User, s.Database, x⟩ <;>
        simp [Accounted, Event.isLog, Event.isDecode, Event.isRead, Event.isFailedDecode,
          Event.isFailedConvert, Event.isFailedWrite, hser]

theorem rangeSeries_accounted (env : Env S U) (s : UDPServer U)
    (a : List (Option serializedSeries)) :
    ∀ seen : List (WriteCall S U), Accounted env (rangeSeries env s seen a).1 := by
  induction a with
  | nil => intro seen; simp [rangeSeries_nil, Accounted]
  | cons x rest ih =>
    intro seen
    cases x with
    | none => simp [rangeSeries_none, Accounted]
    | some ss =>
      rw [rangeSeries_some]
      exact Accounted_append env _ _ (handleSeries_accounted env s seen ss) (ih _)

theorem iteration_accounted (env : Env S U) (s : UDPServer U)
    (seen : List (WriteCall S U)) (buffer : List Byte) (r : Receive) :
    Accounted env (iteration env s seen buffer r).events := by
  rcases iteration_cases env s seen buffer r with ⟨_, h⟩ | ⟨e, hc, h⟩ | ⟨a, hc, h⟩
  · rw [h]
    simp [Accounted, Event.isLog, Event.isDecode, Event.isRead, Event.isFailedDecode,
      Event.isFailedConvert, Event.isFailedWrite]
  · rw [h]
    simp [Accounted, Event.isLog, Event.isDecode, Event.isRead, Event.isFailedDecode,
      Event.isFailedConvert, Event.isFailedWrite, hc.2.2.2]
  · rw [h]
    have h2 : Accounted env
        ([.read, .decode (r.data.take buffer.length)] : List (Event S U)) := by
      simp [Accounted, Event.isLog, Event.isDecode, Event.isRead, Event.isFailedDecode,
        Event.isFailedConvert, Event.isFailedWrite, hc.2.2.2]
    exact Accounted_append env _ _ h2 (rangeSeries_accounted env s a seen)

theorem receiveLoop_accounted (env : Env S U) (s : UDPServer U) (recvs : List Receive) :
    ∀ (seen : List (WriteCall S U)) (buffer : List Byte),
      Accounted env (receiveLoop env s seen buffer recvs).events := by
  induction recvs with
  | nil => intro seen buffer; simp [receiveLoop_nil, Accounted]
  | cons r rs ih =>
    intro seen buffer
    cases hp : (iteration env s seen buffer r).panicked with
    | true =>
      rw [receiveLoop_cons_panicked env s seen buffer r rs hp]
      refine Accounted_append env _ _ (iteration_accounted env s seen buffer r) ?_
      simp [Accounted, Event.isLog, Event.isDecode, Event.isRead, Event.isFailedDecode,
        Event.isFailedConvert, Event.isFailedWrite]
    | false =>
      rw [receiveLoop_cons_continues env s seen buffer r rs hp]
      exact Accounted_append env _ _ (iteration_accounted env s seen buffer r) (ih _ _)

theorem handleSeries_reads (env : Env S U) (s : UDPServer U)
    (seen : List (WriteCall S U)) (ss : serializedSeries) :
    (handleSeries env s seen ss).countP Event.isRead = 0 := by
  unfold handleSeries
  split
  · rfl
  · cases env.series ss .SecondPrecision with
    | error e => rfl
    | ok x =>
      simp only
      cases env.writeSeries seen ⟨s.User, s.Database, x⟩ <;> rfl

theorem rangeSeries_reads (env : Env S U) (s : UDPServer U)
    (a : List (Option serializedSeries)) :
    ∀ seen : List (WriteCall S U), (rangeSeries env s seen a).1.countP Event.isRead = 0 := by
  induction a with
  | nil => intro seen; rfl
  | cons x rest ih =>
    intro seen
    cases x with
    | none => rfl
    | some ss => simp only [rangeSeries_some, List.countP_append, handleSeries_reads, ih]

theorem iteration_reads (env : Env S U) (s : UDPServer U)
    (seen : List (WriteCall S U)) (buffer : List Byte) (r : Receive) :
    (iteration env s seen buffer r).events.countP Event.isRead = 1 := by
  rcases iteration_cases env s seen buffer r with ⟨_, h⟩ | ⟨e, _, h⟩ | ⟨a, _, h⟩
  · rw [h]; rfl
  · rw [h]; rfl
  · rw [h]
    simp [Event.isRead, rangeSeries_reads]

theorem receiveLoop_reads (env : Env S U) (s : UDPServer U) (recvs : List Receive) :
    ∀ (seen : List (WriteCall S U)) (buffer : List Byte),
      (receiveLoop env s seen buffer recvs).status = .running →
        (receiveLoop env s seen buffer recvs).events.countP Event.isRead = recvs.length := by
  induction recvs with
  | nil => intro seen buffer _; rfl
  | cons r rs ih =>
    intro seen buffer
    cases hp : (iteration env s seen buffer r).panicked with
    | true =>
      rw [receiveLoop_cons_panicked env s seen buffer r rs hp]
      intro h
      exact absurd h (by simp)
    | false =>
      rw [receiveLoop_cons_continues env s seen buffer r rs hp]
      intro h
      simp only [List.countP_append, iteration_reads, List.length_cons, ih _ _ h]
      omega

theorem rangeSeries_panicked (env : Env S U) (s : UDPServer U)
    (a : List (Option serializedSeries)) :
    ∀ seen : List (WriteCall S U), (rangeSeries env s seen a).2 = true → none ∈ a := by
  induction a with
  | nil => intro seen h; simp [rangeSeries_nil] at h
  | cons x rest ih =>
    intro seen h
    cases x with
    | none => exact List.mem_cons_self _ _
    | some ss =>
      rw [rangeSeries_some] at h
      exact List.mem_cons_of_mem _ (ih _ h)

theorem iteration_panicked (env : Env S U) (s : UDPServer U)
    (seen : List (WriteCall S U)) (buffer : List Byte) (r : Receive)
    (hp : (iteration env s seen buffer r).panicked = true) :
    ∃ input a, Event.decode input ∈ (iteration env s seen buffer r).events ∧
      env.decode input = .ok a ∧ none ∈ a := by
  rcases iteration_cases env s seen buffer r with ⟨_, h⟩ | ⟨e, _, h⟩ | ⟨a, hc, h⟩
  · rw [h] at hp; simp at hp
  · rw [h] at hp; simp at hp
  · rw [h] at hp ⊢
    exact ⟨_, a, by simp, hc.2.2.2, rangeSeries_panicked env s a seen hp⟩

theorem receiveLoop_panicked (env : Env S U) (s : UDPServer U) (recvs : List Receive) :
    ∀ (seen : List (WriteCall S U)) (buffer : List Byte),
      (receiveLoop env s seen buffer recvs).status = .panicked →
        ∃ input a, Event.decode input ∈ (receiveLoop env s seen buffer recvs).events ∧
          env.decode input = .ok a ∧ none ∈ a := by
  induction recvs with
  | nil => intro seen buffer h; simp [receiveLoop_nil] at h
  | cons r rs ih =>
    intro seen buffer
    cases hp : (iteration env s seen buffer r).panicked with
    | true =>
      rw [receiveLoop_cons_panicked env s seen buffer r rs hp]
      intro _
      obtain ⟨input, a, hmem, hdec, hnil⟩ := iteration_panicked env s seen buffer r hp
      exact ⟨input, a, List.mem_append_left _ hmem, hdec, hnil⟩
    | false =>
      rw [receiveLoop_cons_continues env s seen buffer r rs hp]
      intro h
      obtain ⟨input, a, hmem, hdec, hnil⟩ := ih _ _ h
      exact ⟨input, a, List.mem_append_right _ hmem, hdec, hnil⟩

theorem receiveLoop_not_returned (env : Env S U) (s : UDPServer U) (recvs : List Receive) :
    ∀ (seen : List (WriteCall S U)) (buffer : List Byte) (e : Error),
      (receiveLoop env s seen buffer recvs).status ≠ .returned e := by
  induction recvs with
  | nil => intro seen buffer e h; simp [receiveLoop_nil] at h
  | cons r rs ih =>
    intro seen buffer e
    cases hp : (iteration env s seen buffer r).panicked with
    | true => rw [receiveLoop_cons_panicked env s seen buffer r rs hp]; simp
    | false => rw [receiveLoop_cons_continues env s seen buffer r rs hp]; exact ih _ _ e

/-- C8: a run of `ListenAndServe` has returned only if the bind address was
missing (with `ErrBindAddressRequired`) or the bind failed (with its error);
it has left the receive loop by a panic only if the decoder returned a list
with a nil record; as long as it has not panicked it has gone through every
receive given to it; and each receive error, zero-length read, decode error,
conversion error and `WriteSeries` error of the run has its log line
(`Accounted`). -/
theorem returns_only_for_address_or_bind (env : Env S U) (s : UDPServer U)
    (recvs : List Receive) :
    (∀ e, (ListenAndServe env s recvs).status = .returned e →
        (s.Addr = none ∧ e = .ErrBindAddressRequired) ∨
          (∃ addr, s.Addr = some addr ∧ env.listenUDP addr = some e))
      ∧ ((ListenAndServe env s recvs).status = .panicked →
        ∃ input a, Event.decode input ∈ (ListenAndServe env s recvs).events ∧
          env.decode input = .ok a ∧ none ∈ a)
      ∧ ((ListenAndServe env s recvs).status = .running →
        (ListenAndServe env s recvs).events.countP Event.isRead = recvs.length)
      ∧ Accounted env (ListenAndServe env s recvs).events := by
  cases haddr : s.Addr with
  | none =>
    rw [ListenAndServe_unbound env s recvs haddr]
    refine ⟨?_, ?_, ?_, ?_⟩
    · intro e h
      exact Or.inl ⟨rfl, (Status.returned.inj h).symm⟩
    · intro h; exact absurd h (by simp)
    · intro h; exact absurd h (by simp)
    · simp [Accounted]
  | some addr =>
    cases hbind : env.listenUDP addr with
    | some err =>
      rw [ListenAndServe_bind_failed env s recvs addr err haddr hbind]
      refine ⟨?_, ?_, ?_, ?_⟩
      · intro e h
        exact Or.inr ⟨addr, rfl, by rw [hbind, Status.returned.inj h]⟩
      · intro h; exact absurd h (by simp)
      · intro h; exact absurd h (by simp)
      · simp [Accounted, Event.isLog, Event.isDecode, Event.isRead, Event.isFailedDecode,
          Event.isFailedConvert, Event.isFailedWrite]
    | none =>
      rw [ListenAndServe_bound env s recvs addr haddr hbind]
      refine ⟨?_, ?_, ?_, ?_⟩
      · intro e h
        exact absurd h (receiveLoop_not_returned env s recvs [] freshBuffer e)
      · intro h
        obtain ⟨input, a, hmem, hdec, hnil⟩ :=
          receiveLoop_panicked env s recvs [] freshBuffer h
        exact ⟨input, a, List.mem_cons_of_mem _ hmem, hdec, hnil⟩
      · intro h
        have := receiveLoop_reads env s recvs [] freshBuffer h
        simpa [Event.isRead] using this
      · have h1 : Accounted env ([.listen addr] : List (Event S U)) := by
          simp [Accounted, Event.isLog, Event.isDecode, Event.isRead, Event.isFailedDecode,
            Event.isFailedConvert, Event.isFailedWrite]
        exact Accounted_append env [.listen addr] _ h1
          (receiveLoop_accounted env s recvs [] freshBuffer)

/-! ## Receive errors -/

theorem receiveLoop_all_errors (env : Env S U) (s : UDPServer U) (tail : List Receive) :
    ∀ (seen : List (WriteCall S U)) (buffer : List Byte),
      (∀ r ∈ tail, r.err ≠ none) →
        receiveLoop env s seen buffer tail =
          ⟨s, tail.flatMap (fun r => [.read, .log "UDP ReadFromUDP error: %s" r.err]),
            .running⟩ := by
  induction tail with
  | nil => intro seen buffer _; rfl
  | cons r rs ih =>
    intro seen buffer h
    have hi := iteration_rejected env s seen buffer r (Or.inl (h r (List.mem_cons_self _ _)))
    have hp : (iteration env s seen buffer r).panicked = false := by rw [hi]
    rw [receiveLoop_cons_continues env s seen buffer r rs hp, hi,
      ih _ _ (fun x hx => h x (List.mem_cons_of_mem _ hx))]
    rfl

theorem receiveLoop_append_errors (env : Env S U) (s : UDPServer U)
    (recvs tail : List Receive) (htail : ∀ r ∈ tail, r.err ≠ none) :
    ∀ (seen : List (WriteCall S U)) (buffer : List Byte),
      (receiveLoop env s seen buffer recvs).status = .running →
        receiveLoop env s seen buffer (recvs ++ tail) =
          ⟨s, (receiveLoop env s seen buffer recvs).events ++
              tail.flatMap (fun r => [.read, .log "UDP ReadFromUDP error: %s" r.err]),
            .running⟩ := by
  induction recvs with
  | nil =>
    intro seen buffer _
    rw [List.nil_append, receiveLoop_all_errors env s tail seen buffer htail]
    rfl
  | cons r rs ih =>
    intro seen buffer
    cases hp : (iteration env s seen buffer r).panicked with
    | true =>
      rw [receiveLoop_cons_panicked env s seen buffer r rs hp]
      intro h
      exact absurd h (by simp)
    | false =>
      rw [List.cons_append, receiveLoop_cons_continues env s seen buffer r rs hp,
        receiveLoop_cons_continues env s seen buffer r (rs ++ tail) hp]
      intro h
      rw [ih _ _ h]
      simp only [List.append_assoc]

/-- C9 as amended: once every further receive reports an error (the socket has
been closed), a listener that was in its receive loop stays in it: each such
receive is read and logged, nothing else happens, and `ListenAndServe` has not
returned, however many receives follow. -/
theorem read_errors_keep_the_loop_running (env : Env S U) (s : UDPServer U)
    (recvs tail : List Receive)
    (hrun : (ListenAndServe env s recvs).status = .running)
    (htail : ∀ r ∈ tail, r.err ≠ none) :
    (ListenAndServe env s (recvs ++ tail)).status = .running
      ∧ (ListenAndServe env s (recvs ++ tail)).events =
        (ListenAndServe env s recvs).events ++
          tail.flatMap (fun r => [.read, .log "UDP ReadFromUDP error: %s" r.err]) := by
  cases haddr : s.Addr with
  | none =>
    rw [ListenAndServe_unbound env s recvs haddr] at hrun
    exact absurd hrun (by simp)
  | some addr =>
    cases hbind : env.listenUDP addr with
    | some err =>
      rw [ListenAndServe_bind_failed env s recvs addr err haddr hbind] at hrun
      exact absurd hrun (by simp)
    | none =>
      rw [ListenAndServe_bound env s recvs addr haddr hbind] at hrun ⊢
      rw [ListenAndServe_bound env s (recvs ++ tail) addr haddr hbind,
        receiveLoop_append_errors env s recvs tail htail [] freshBuffer hrun]
      exact ⟨rfl, rfl⟩

/-- The scenario of C9 as amended: after one datagram, three receives on the
closed socket are logged and the listener is still in its loop. -/
theorem read_errors_keep_the_loop_running_witness :
    (ListenAndServe scenarioEnv scenarioServer
        ([⟨badPayload, none⟩] ++ List.replicate 3 ⟨[], some closedError⟩)).status =
      .running := by
  have hdec : scenarioEnv.decode
      ((⟨badPayload, none⟩ : Receive).data.take freshBuffer.length) =
        .error (.other "invalid character") := by
    rw [take_freshBuffer_length _ (by decide)]
    rfl
  have hi := iteration_decode_error scenarioEnv scenarioServer [] freshBuffer
    ⟨badPayload, none⟩ (.other "invalid character") rfl (by decide)
    (by rw [freshBuffer_length]; decide) hdec
  have hp : (iteration scenarioEnv scenarioServer [] freshBuffer
      ⟨badPayload, none⟩).panicked = false := by rw [hi]
  have hrun : (ListenAndServe scenarioEnv scenarioServer [⟨badPayload, none⟩]).status =
      .running := by
    rw [ListenAndServe_bound scenarioEnv scenarioServer _ ⟨[127, 0, 0, 1], 4444, ""⟩ rfl rfl,
      receiveLoop_cons_continues scenarioEnv scenarioServer [] freshBuffer _ _ hp]
    rfl
  exact (read_errors_keep_the_loop_running scenarioEnv scenarioServer [⟨badPayload, none⟩]
    (List.replicate 3 ⟨[], some closedError⟩) hrun
    (by intro r hr; rw [List.eq_of_mem_replicate hr]; simp)).1

/-- C9 fails on the code: with the socket bound and every receive reporting
the error of a closed socket, there is no number of receives after which
`ListenAndServe` has left its receive loop. -/
theorem closed_socket_never_returns :
    ¬ ∃ n : Nat, (ListenAndServe scenarioEnv scenarioServer
        (List.replicate n ⟨[], some closedError⟩)).status ≠ .running := by
  rintro ⟨n, hn⟩
  apply hn
  rw [ListenAndServe_bound scenarioEnv scenarioServer _ ⟨[127, 0, 0, 1], 4444, ""⟩ rfl rfl,
    receiveLoop_all_errors scenarioEnv scenarioServer _ [] freshBuffer
      (by intro r hr; rw [List.eq_of_mem_replicate hr]; simp)]

/-! ## What the decoder is given -/

theorem decodeInputs_append (xs ys : List (Event S U)) :
    decodeInputs (xs ++ ys) = decodeInputs xs ++ decodeInputs ys := by
  simp [decodeInputs]

theorem handleSeries_decodeInputs (env : Env S U) (s : UDPServer U)
    (seen : List (WriteCall S U)) (ss : serializedSeries) :
    decodeInputs (handleSeries env s seen ss) = [] := by
  unfold handleSeries
  split
  · rfl
  · cases env.series ss .SecondPrecision with
    | error e => rfl
    | ok x =>
      simp only
      cases env.writeSeries seen ⟨s.User, s.Database, x⟩ <;> rfl

theorem rangeSeries_decodeInputs (env : Env S U) (s : UDPServer U)
    (a : List (Option serializedSeries)) :
    ∀ seen : List (WriteCall S U), decodeInputs (rangeSeries env s seen a).1 = [] := by
  induction a with
  | nil => intro seen; rfl
  | cons x rest ih =>
    intro seen
    cases x with
    | none => rfl
    | some ss =>
      simp only [rangeSeries_some, decodeInputs_append, handleSeries_decodeInputs, ih,
        List.append_nil]

theorem accepted_iff (r : Receive) :
    r.accepted = true ↔ r.err = none ∧ 0 < r.data.length := by
  cases r with
  | mk data err =>
    cases err <;> cases data <;> simp [Receive.accepted]

theorem iteration_decodeInputs (env : Env S U) (s : UDPServer U)
    (seen : List (WriteCall S U)) (buffer : List Byte) (r : Receive)
    (hb : buffer.length = 2048) :
    decodeInputs (iteration env s seen buffer r).events =
      if r.accepted then [r.data.take 2048] else [] := by
  rcases iteration_cases env s seen buffer r with ⟨hc, h⟩ | ⟨e, hc, h⟩ | ⟨a, hc, h⟩
  · have hacc : r.accepted = false := by
      cases hr : r.accepted with
      | false => rfl
      | true =>
        have := (accepted_iff r).mp hr
        rcases hc with hc | hc | hc
        · exact absurd this.1 hc
        · omega
        · omega
    rw [h, hacc]
    rfl
  · have hacc : r.accepted = true := (accepted_iff r).mpr ⟨hc.1, hc.2.1⟩
    rw [h, hacc, hb]
    rfl
  · have hacc : r.accepted = true := (accepted_iff r).mpr ⟨hc.1, hc.2.1⟩
    rw [h, hacc, hb, if_pos rfl]
    show r.data.take 2048 :: decodeInputs (rangeSeries env s seen a).1 = _
    rw [rangeSeries_decodeInputs]

theorem receiveLoop_decodeInputs (env : Env S U) (s : UDPServer U) (recvs : List Receive) :
    ∀ (seen : List (WriteCall S U)) (buffer : List Byte), buffer.length = 2048 →
      decodeInputs (receiveLoop env s seen buffer recvs).events =
        ((recvs.take ((receiveLoop env s seen buffer recvs).events.countP Event.isRead)).filter
          Receive.accepted).map (fun r => r.data.take 2048) := by
  induction recvs with
  | nil => intro seen buffer _; rfl
  | cons r rs ih =>
    intro seen buffer hb
    have hi := iteration_decodeInputs env s seen buffer r hb
    cases hp : (iteration env s seen buffer r).panicked with
    | true =>
      rw [receiveLoop_cons_panicked env s seen buffer r rs hp]
      have hacc : r.accepted = true := by
        obtain ⟨input, a, hmem, _, _⟩ := iteration_panicked env s seen buffer r hp
        cases hr : r.accepted with
        | true => rfl
        | false =>
          rw [hr] at hi
          have hin : input ∈ decodeInputs (iteration env s seen buffer r).events := by
            unfold decodeInputs
            exact List.mem_filterMap.mpr ⟨_, hmem, rfl⟩
          rw [hi] at hin
          simp at hin
      simp only [decodeInputs_append, hi, hacc, List.countP_append, iteration_reads]
      simp [decodeInputs, Event.asDecode, Event.isRead, hacc]
    | false =>
      rw [receiveLoop_cons_continues env s seen buffer r rs hp]
      have hb' : (readFromUDP buffer r).2.2.length = 2048 := by
        rw [readFromUDP_length, hb]
      simp only [decodeInputs_append, hi, List.countP_append, iteration_reads, ih _ _ hb']
      rw [Nat.add_comm, List.take_succ_cons, List.filter_cons]
      cases r.accepted <;> simp

/-- C10: over a whole run, the decoder is invoked exactly for the receives
performed that report no error and at least one byte, in order, each time on
the first 2048 bytes of that datagram; in one pass with a buffer of 2048 bytes
holding anything, such a receive copies `n = min(len, 2048)` bytes, the slice
`buffer[0:n]` is exactly these bytes of the datagram, and the decoder is
invoked once, on them; a receive with an error or without bytes gives the read
and one log line and nothing else. -/
theorem decoder_gets_exactly_the_received_bytes (env : Env S U) (s : UDPServer U)
    (recvs : List Receive) :
    decodeInputs (ListenAndServe env s recvs).events =
        ((recvs.take ((ListenAndServe env s recvs).events.countP Event.isRead)).filter
          Receive.accepted).map (fun r => r.data.take 2048)
      ∧ (∀ (seen : List (WriteCall S U)) (buffer : List Byte) (r : Receive),
        buffer.length = 2048 → r.err = none → 0 < r.data.length →
          (readFromUDP buffer r).1 = min r.data.length 2048 ∧
          (readFromUDP buffer r).2.2.take (readFromUDP buffer r).1 = r.data.take 2048 ∧
          decodeInputs (iteration env s seen buffer r).events = [r.data.take 2048])
      ∧ (∀ (seen : List (WriteCall S U)) (buffer : List Byte) (r : Receive),
        r.err ≠ none ∨ r.data.length = 0 →
          (iteration env s seen buffer r).events =
            [.read, .log "UDP ReadFromUDP error: %s" r.err]) := by
  refine ⟨?_, ?_, ?_⟩
  · cases haddr : s.Addr with
    | none => rw [ListenAndServe_unbound env s recvs haddr]; rfl
    | some addr =>
      cases hbind : env.listenUDP addr with
      | some err =>
        rw [ListenAndServe_bind_failed env s recvs addr err haddr hbind]
        rfl
      | none =>
        rw [ListenAndServe_bound env s recvs addr haddr hbind]
        have h := receiveLoop_decodeInputs env s recvs [] freshBuffer freshBuffer_length
        simpa [decodeInputs, Event.asDecode, Event.isRead] using h
  · intro seen buffer r hb herr hn
    refine ⟨by rw [← hb]; rfl, by rw [readFromUDP_input, hb], ?_⟩
    rw [iteration_decodeInputs env s seen buffer r hb, (accepted_iff r).mpr ⟨herr, hn⟩]
    rfl
  · intro seen buffer r h
    have hc : r.err ≠ none ∨ r.data.length = 0 ∨ buffer.length = 0 := by
      rcases h with h | h
      · exact Or.inl h
      · exact Or.inr (Or.inl h)
    rw [iteration_rejected env s seen buffer r hc]

end Influxdb
